import Mathlib

/-!
Verification of the external-test harness (scripts/externalTests/common.py and
test/externalTests/runners/foundry.py) against its specification.

The Python source is shallowly embedded: pure helpers become Lean functions,
the orchestrator `run_test` becomes a function from an abstract runner oracle
to a trace of runner invocations plus an optional propagated error, and the
regex substitutions are embedded as character-list transformations that follow
Python `re` semantics for the concrete patterns appearing in the source.
-/

/-- The six preset names, from `AVAILABLE_PRESETS` in common.py. -/
def AVAILABLE_PRESETS : List String :=
  [ "legacy-no-optimize"
  , "ir-no-optimize"
  , "legacy-optimize-evm-only"
  , "ir-optimize-evm-only"
  , "legacy-optimize-evm+yul"
  , "ir-optimize-evm+yul"
  ]

/-- `settings["optimizer"]["details"]` sub-dict: `{"yul": yul}`.
The Python source stores the flags as the strings "true"/"false", not as
booleans; the embedding keeps them as strings. -/
structure OptimizerDetails where
  yul : String
deriving DecidableEq

/-- `settings["optimizer"]` sub-dict: `{"enabled": optimizer, "details": {"yul": yul}}`. -/
structure OptimizerSettings where
  enabled : String
  details : OptimizerDetails
deriving DecidableEq

/-- The settings dict returned by `compiler_settings` in common.py:
`{"optimizer": ..., "evmVersion": evm_version, "viaIR": via_ir}`. -/
structure CompilerSettings where
  optimizer : OptimizerSettings
  evmVersion : String
  viaIR : String
deriving DecidableEq

/-- `compiler_settings(evm_version, via_ir, optimizer, yul)` from common.py.
The source takes `via_ir`, `optimizer` and `yul` as keyword arguments all
defaulting to "false"; here they are passed positionally in that order and
every call site spells the defaults out. -/
def compiler_settings (evm_version via_ir optimizer yul : String) : CompilerSettings :=
  { optimizer := { enabled := optimizer, details := { yul := yul } }
  , evmVersion := evm_version
  , viaIR := via_ir
  }

/-- The `switch` dict literal inside `settings_from_preset`, as an association
list. Each entry spells out the keyword arguments used at the corresponding
call of `compiler_settings` ("false" where the source relies on the default). -/
def presetSwitch (evm_version : String) : List (String × CompilerSettings) :=
  [ ("legacy-no-optimize", compiler_settings evm_version "false" "false" "false")
  , ("ir-no-optimize", compiler_settings evm_version "true" "false" "false")
  , ("legacy-optimize-evm-only", compiler_settings evm_version "false" "true" "false")
  , ("ir-optimize-evm-only", compiler_settings evm_version "true" "true" "false")
  , ("legacy-optimize-evm+yul", compiler_settings evm_version "false" "true" "true")
  , ("ir-optimize-evm+yul", compiler_settings evm_version "true" "true" "true")
  ]

/-- `settings_from_preset(preset, evm_version)` from common.py.
The source asserts `preset in AVAILABLE_PRESETS` and `preset in switch` and
returns `switch[preset]`; a failed assertion is modelled as `none`. -/
def settings_from_preset (preset evm_version : String) : Option CompilerSettings :=
  if preset ∈ AVAILABLE_PRESETS then
    (presetSwitch evm_version).lookup preset
  else
    none

/-- Character class of `(\-|\+)` in the `profile_name` regex. -/
def isDashOrPlus (c : Char) : Bool :=
  c = '-' || c = '+'

/-- Core of `FoundryRunner.profile_name`: `re.sub(r"(\-|\+)+", "_", preset)`.
`re.sub` replaces each maximal (greedy `+`) run of `-`/`+` characters by a
single underscore and copies everything else. The boolean argument records
whether the scan is currently inside such a run (so only the first character
of a run emits the underscore). -/
def profileNameGo : Bool → List Char → List Char
  | _, [] => []
  | inRun, c :: cs =>
    if isDashOrPlus c then
      if inRun then profileNameGo true cs else '_' :: profileNameGo true cs
    else
      c :: profileNameGo false cs

/-- `FoundryRunner.profile_name(preset)` from foundry.py. -/
def profile_name (preset : String) : String :=
  String.mk (profileNameGo false preset.data)

/-- Character class `[a-zA-Z: ]` of `SOLC_FULL_VERSION_REGEX`.
`Char.isAlpha` is exactly the ASCII ranges `a-z` and `A-Z`. -/
def isFullVersionClassChar (c : Char) : Bool :=
  c.isAlpha || c = ':' || c = ' '

/-- Python `$` without `re.MULTILINE`: matches at the end of the string, or
just before a newline that is the last character. -/
def dollarHoldsAt (cs : List Char) (j : Nat) : Bool :=
  j == cs.length || (j + 1 == cs.length && cs.getD j ' ' == '\n')

/-- One attempt of `[a-zA-Z: ]*(.*)$` with the class star fixed to consume
`i` characters: `(.*)` greedily consumes non-newline characters and
backtracks until `$` holds; returns the text captured by the group. -/
def tryFullVersionAt (cs : List Char) (i : Nat) : Option (List Char) :=
  let maxRun := ((cs.drop i).takeWhile (fun c => c ≠ '\n')).length
  (List.range (maxRun + 1)).findSome? fun k =>
    let j := i + maxRun - k
    if dollarHoldsAt cs j then some ((cs.drop i).take (j - i)) else none

/-- `re.search(SOLC_FULL_VERSION_REGEX, s)` where
`SOLC_FULL_VERSION_REGEX = r"^[a-zA-Z: ]*(.*)$"`: since the pattern is
anchored with `^` (and `re.MULTILINE` is not set) it can only match at
position 0.  The greedy `[a-zA-Z: ]*` consumes the longest class prefix
first and backtracks one character at a time; the captured group of the
first successful attempt is returned, `none` when the pattern does not
match. -/
def searchFullVersion (cs : List Char) : Option (List Char) :=
  let iMax := (cs.takeWhile isFullVersionClassChar).length
  (List.range (iMax + 1)).findSome? fun k =>
    tryFullVersionAt cs (iMax - k)

/-- `parse_solc_version(solc_version_string)` from common.py: raises a
`RuntimeError` (modelled as `.error`) when `re.search` returns `None`,
otherwise returns `match.group(1)`. -/
def parse_solc_version (solc_version_string : String) : Except String String :=
  match searchFullVersion solc_version_string.data with
  | none => .error "Solc version could not be found"
  | some g => .ok (String.mk g)

/-- Character class `[0-9.]` of `SOLC_SHORT_VERSION_REGEX`. -/
def isShortVersionClassChar (c : Char) : Bool :=
  c.isDigit || c = '.'

/-- First alternative of `SOLC_SHORT_VERSION_REGEX = r"^([0-9.]+).*\+|\-$"`,
i.e. `^([0-9.]+).*\+`: anchored at position 0, needs at least one digit/dot
and then a `+` somewhere on the first line (`.` does not cross newlines).
Because `+` is not in `[0-9.]`, backtracking of the greedy `[0-9.]+` never
changes whether a `+` is reachable, so the group is the maximal digit/dot
prefix. -/
def shortVersionBranch1 (cs : List Char) : Bool :=
  (match cs with
   | [] => false
   | c :: _ => isShortVersionClassChar c)
  && (cs.takeWhile (fun c => c ≠ '\n')).contains '+'

/-- Second alternative `\-$`: some position holds a `-` followed by a
position where `$` holds, i.e. the string ends in `-` or in `-\n`. -/
def shortVersionBranch2 (cs : List Char) : Bool :=
  match cs.reverse with
  | '-' :: _ => true
  | '\n' :: '-' :: _ => true
  | _ => false

/-- `get_solc_short_version(solc_full_version)` from common.py.  `.error`
models the raised `RuntimeError`; `.ok none` models the Python `None` that
`group(1)` yields when only the second alternative (which contains no
group 1) matched. -/
def get_solc_short_version (solc_full_version : String) : Except String (Option String) :=
  let cs := solc_full_version.data
  if shortVersionBranch1 cs then
    .ok (some (String.mk (cs.takeWhile isShortVersionClassChar)))
  else if shortVersionBranch2 cs then
    .ok none
  else
    .error "Error extracting short version string"

/-- The literal part `pragma solidity ` (16 characters) of the pattern
`r"pragma solidity [^;]+;"` used by `replace_version_pragmas`. -/
def pragmaLit : List Char :=
  "pragma solidity ".data

/-- The replacement text `pragma solidity >=0.0;` of `replace_version_pragmas`. -/
def pragmaRepl : List Char :=
  "pragma solidity >=0.0;".data

/-- Attempt to match `r"pragma solidity [^;]+;"` at the head of `cs`:
the literal, then a greedy nonempty run of non-semicolon characters, then a
semicolon (the greedy `[^;]+` stops exactly at the first `;`, and if no `;`
follows the run no amount of backtracking helps, because every shorter run
is also followed by a non-semicolon).  Returns the remainder of the string
after the match. -/
def matchPragmaAt (cs : List Char) : Option (List Char) :=
  if cs.take 16 = pragmaLit then
    let run := (cs.drop 16).takeWhile (fun c => c ≠ ';')
    let after := (cs.drop 16).drop run.length
    if run = [] then none
    else if after = [] then none
    else some after.tail
  else none

/-- The scan loop of `re.sub(r"pragma solidity [^;]+;", r"pragma solidity >=0.0;", content)`:
at each position try the pattern; on a match emit the replacement and
continue after the matched text, otherwise copy one character.  `fuel`
bounds the recursion (every step consumes at least one character, so
`fuel = cs.length` always suffices). -/
def replacePragmasGo : Nat → List Char → List Char
  | 0, cs => cs
  | _ + 1, [] => []
  | fuel + 1, c :: cs =>
    match matchPragmaAt (c :: cs) with
    | some rest => pragmaRepl ++ replacePragmasGo fuel rest
    | none => c :: replacePragmasGo fuel cs

/-- The content transformation applied by `replace_version_pragmas` in
common.py to each `.sol` file:
`re.sub(r"pragma solidity [^;]+;", r"pragma solidity >=0.0;", content)`. -/
def replace_version_pragmas (content : List Char) : List Char :=
  replacePragmasGo content.length content

/-- The `TestConfig` dataclass from common.py.  All fields are plain data;
the generated `__init__` performs no validation whatsoever. -/
structure TestConfig where
  name : String
  repo_url : String
  ref_type : String
  ref : String
  build_dependency : String
  compile_only_presets : List String
  settings_presets : List String
  evm_version : String
deriving DecidableEq

/-- Construction of a `TestConfig`, i.e. the dataclass-generated `__init__`:
it stores the fields and can never raise (there is no validation code and no
`InvalidConfig` check anywhere in the class).  The `Except` result type
records the possibility space of a failing constructor; the body shows it is
never used. -/
def makeTestConfig (name repo_url ref_type ref build_dependency : String)
    (compile_only_presets settings_presets : List String)
    (evm_version : String) : Except String TestConfig :=
  .ok
    { name := name
    , repo_url := repo_url
    , ref_type := ref_type
    , ref := ref
    , build_dependency := build_dependency
    , compile_only_presets := compile_only_presets
    , settings_presets := settings_presets
    , evm_version := evm_version
    }

/-- `TestConfig.selected_presets`: `set(self.compile_only_presets + self.settings_presets)`.
A Python set has unspecified iteration order; `List.dedup` of the
concatenation produces the same elements, each exactly once, which is all
the downstream counting arguments depend on. -/
def TestConfig.selected_presets (cfg : TestConfig) : List String :=
  (cfg.compile_only_presets ++ cfg.settings_presets).dedup

/-- The runner-level calls the orchestrator `run_test` makes, in order. -/
inductive Event where
  | setupSolc
  | download
  | setupEnv
  | compilerSettings
  | compile (preset : String)
  | runTest
  | clean
deriving DecidableEq

/-- The distinct ways a run can abort, one per raise site reachable from
`run_test` in common.py. -/
inductive RunError where
  | solcSetupFailed
  | versionParseError
  | refTypeAssert
  | cloneFailed
  | envFailed
  | settingsFailed
  | presetAssert
  | shortVersionError
  | compileFailed
  | testFailed
deriving DecidableEq

/-- Abstract behaviour of one `TestRunner` instance and of the external
processes it drives.  `setupSolcRaw` is the version output string that
`setup_solc` feeds to `parse_solc_version` (`none` when setup itself raises
first, e.g. `NPM not found`); the `Bool` fields tell whether the
corresponding subprocess-backed stage succeeds. -/
structure RunnerOracle where
  setupSolcRaw : Option String
  downloadOk : Bool
  setupEnvOk : Bool
  compilerSettingsOk : Bool
  compileOk : String → Bool
  runTestOk : String → Bool

/-- The process environment bits `run_test` reads inside the loop:
`os.environ.get("COMPILE_ONLY")`. -/
structure OrchEnv where
  compileOnlyFlag : Option String

/-- The test-skipping condition of the loop body:
`os.environ.get("COMPILE_ONLY") == "1" or preset in runner.config.compile_only_presets`. -/
def skipsTests (env : OrchEnv) (cfg : TestConfig) (preset : String) : Bool :=
  env.compileOnlyFlag == some "1" || cfg.compile_only_presets.contains preset

/-- The body of `for preset in runner.config.selected_presets()` in
`run_test` (common.py lines 319-341): per preset it evaluates
`settings_from_preset` (whose failing assertion aborts the run), formats the
progress banner — which calls `get_solc_short_version(solc_version)` and can
raise — then calls `runner.compile(preset)` and, unless
`skipsTests` holds, `runner.run_test()`.  Returns the trace of runner
calls made and the propagated error, if any. -/
def presetLoop (env : OrchEnv) (cfg : TestConfig) (orc : RunnerOracle)
    (solc_version : String) : List String → List Event × Option RunError
  | [] => ([], none)
  | preset :: rest =>
    if (settings_from_preset preset cfg.evm_version).isSome then
      match get_solc_short_version solc_version with
      | .error _ => ([], some .shortVersionError)
      | .ok _ =>
        if orc.compileOk preset then
          if skipsTests env cfg preset then
            let (t, out) := presetLoop env cfg orc solc_version rest
            (Event.compile preset :: t, out)
          else
            if orc.runTestOk preset then
              let (t, out) := presetLoop env cfg orc solc_version rest
              (Event.compile preset :: Event.runTest :: t, out)
            else
              ([Event.compile preset, Event.runTest], some .testFailed)
        else
          ([Event.compile preset], some .compileFailed)
    else
      ([], some .presetAssert)

/-- The orchestrator `run_test(runner)` from common.py lines 290-344:
`setup_solc` (whose result goes through `parse_solc_version`), then
`download_project` (which first asserts
`ref_type in ("commit", "branch", "tag")`), then `setup_environment`, then
`compiler_settings(presets)`, then the per-preset loop, then
`runner.clean()`.  There is no try/finally: any raise propagates and the
statements after it, `runner.clean()` included, do not run. -/
def run_test (env : OrchEnv) (cfg : TestConfig) (orc : RunnerOracle) :
    List Event × Option RunError :=
  match orc.setupSolcRaw with
  | none => ([Event.setupSolc], some .solcSetupFailed)
  | some out =>
    match parse_solc_version out with
    | .error _ => ([Event.setupSolc], some .versionParseError)
    | .ok solc_version =>
      if cfg.ref_type = "commit" ∨ cfg.ref_type = "branch" ∨ cfg.ref_type = "tag" then
        if orc.downloadOk then
          if orc.setupEnvOk then
            if orc.compilerSettingsOk then
              match presetLoop env cfg orc solc_version cfg.selected_presets with
              | (t, none) =>
                ([Event.setupSolc, Event.download, Event.setupEnv, Event.compilerSettings]
                  ++ t ++ [Event.clean], none)
              | (t, some e) =>
                ([Event.setupSolc, Event.download, Event.setupEnv, Event.compilerSettings]
                  ++ t, some e)
            else
              ([Event.setupSolc, Event.download, Event.setupEnv, Event.compilerSettings],
                some .settingsFailed)
          else
            ([Event.setupSolc, Event.download, Event.setupEnv], some .envFailed)
        else
          ([Event.setupSolc, Event.download], some .cloneFailed)
      else
        ([Event.setupSolc], some .refTypeAssert)

/-- Number of `clean` calls in a trace. -/
def countClean (t : List Event) : Nat :=
  t.countP (fun e => decide (e = Event.clean))

/-- Number of `compile` calls in a trace. -/
def countCompile (t : List Event) : Nat :=
  t.countP (fun e => match e with | Event.compile _ => true | _ => false)

/-- Number of `run_test` calls in a trace. -/
def countRunTest (t : List Event) : Nat :=
  t.countP (fun e => decide (e = Event.runTest))

/-- The one piece of process state `on_local_test_dir` manipulates: the
current working directory. -/
structure ProcState where
  cwd : String
deriving DecidableEq

/-- A runner-operation body: it sees the process state, may change the
working directory itself, and either returns a value or raises. -/
def OpBody (α : Type) : Type :=
  ProcState → ProcState × Except String α

/-- `TestRunner.on_local_test_dir(fn)` from common.py: the wrapper asserts
`self.test_dir is not None` (the field is always set by `__init__`, so the
assertion is modelled as always passing), calls `os.chdir(self.test_dir)`
and then runs `fn`.  Note there is no save of the previous directory and no
try/finally: nothing restores the caller's working directory on any exit
path. -/
def on_local_test_dir {α : Type} (test_dir : String) (fn : OpBody α) : OpBody α :=
  fun _s => fn ⟨test_dir⟩

/-- `TestRunner.clean` from common.py: decorated with `on_local_test_dir`;
its body removes `self.tmp_dir` with `rmtree`, which does not change the
working directory and (on the happy path modelled here) does not raise. -/
def cleanOp (test_dir : String) : OpBody Unit :=
  on_local_test_dir test_dir (fun s => (s, .ok ()))

/-- A process environment without the COMPILE_ONLY override. -/
def envNoFlag : OrchEnv :=
  ⟨none⟩

/-- A process environment with COMPILE_ONLY=1. -/
def envFlagOn : OrchEnv :=
  ⟨some "1"⟩

/-- A runner whose external stages all succeed; the version output is the
post-split text a native `solc --version` produces. -/
def oracleAllOk : RunnerOracle :=
  { setupSolcRaw := some " 0.8.21+commit.d9974bed.Linux.g++"
  , downloadOk := true
  , setupEnvOk := true
  , compilerSettingsOk := true
  , compileOk := fun _ => true
  , runTestOk := fun _ => true
  }

/-- Same runner, but every `forge build` invocation fails. -/
def oracleCompileFails : RunnerOracle :=
  { oracleAllOk with compileOk := fun _ => false }

/-- The PRBMath configuration from prb-math.py: one compile-only preset and
the five remaining presets as full-test presets. -/
def cfgSix : TestConfig :=
  { name := "PRBMath"
  , repo_url := "https://github.com/PaulRBerg/prb-math.git"
  , ref_type := "branch"
  , ref := "main"
  , build_dependency := "rust"
  , compile_only_presets := ["ir-no-optimize"]
  , settings_presets :=
      [ "ir-optimize-evm-only"
      , "ir-optimize-evm+yul"
      , "legacy-optimize-evm-only"
      , "legacy-optimize-evm+yul"
      , "legacy-no-optimize"
      ]
  , evm_version := "shanghai"
  }

/-- C1: for every preset name in the fixed six-preset set and every
platform-version string v, `settings_from_preset(preset, v)` returns exactly
the prescribed bundle: `evmVersion` is v and the optimizer-enabled,
optimizer-details-yul and viaIR fields carry the booleans determined by the
preset name (the source encodes the booleans as the strings "true"/"false"):
both flags and viaIR false for legacy-no-optimize; viaIR alone for
ir-no-optimize; optimizer alone for legacy-optimize-evm-only; optimizer and
viaIR for ir-optimize-evm-only; optimizer and yul for
legacy-optimize-evm+yul; and all three for ir-optimize-evm+yul. -/
theorem c1_settings_from_preset_table (v : String) :
    settings_from_preset "legacy-no-optimize" v =
      some { optimizer := { enabled := "false", details := { yul := "false" } }
           , evmVersion := v, viaIR := "false" }
    ∧ settings_from_preset "ir-no-optimize" v =
      some { optimizer := { enabled := "false", details := { yul := "false" } }
           , evmVersion := v, viaIR := "true" }
    ∧ settings_from_preset "legacy-optimize-evm-only" v =
      some { optimizer := { enabled := "true", details := { yul := "false" } }
           , evmVersion := v, viaIR := "false" }
    ∧ settings_from_preset "ir-optimize-evm-only" v =
      some { optimizer := { enabled := "true", details := { yul := "false" } }
           , evmVersion := v, viaIR := "true" }
    ∧ settings_from_preset "legacy-optimize-evm+yul" v =
      some { optimizer := { enabled := "true", details := { yul := "true" } }
           , evmVersion := v, viaIR := "false" }
    ∧ settings_from_preset "ir-optimize-evm+yul" v =
      some { optimizer := { enabled := "true", details := { yul := "true" } }
           , evmVersion := v, viaIR := "true" } :=
  ⟨rfl, rfl, rfl, rfl, rfl, rfl⟩

/-- C6: `profile_name` turns the `-`/`+` characters of a preset name into
`_` (on each of the six presets it agrees with the per-character
substitution), sends "ir-optimize-evm+yul" to "ir_optimize_evm_yul", and is
injective on the six recognized presets: the six sanitized names are
pairwise distinct. -/
theorem c6_profile_name_sanitization :
    profile_name "ir-optimize-evm+yul" = "ir_optimize_evm_yul"
    ∧ (AVAILABLE_PRESETS.all fun p =>
        profile_name p == String.mk (p.data.map fun c => if isDashOrPlus c then '_' else c)) = true
    ∧ (AVAILABLE_PRESETS.map profile_name).Nodup := by
  refine ⟨by decide, by decide, by decide⟩

/-- C5: `parse_solc_version` raises (returns `.error`) exactly when the
pattern `^[a-zA-Z: ]*(.*)$` finds no match in the version string, and the
failure branch is reachable: the pattern cannot match a string with a
non-trailing newline, such as the unsplit multi-line output of
`solc --version`. -/
theorem c5_parse_solc_version_error_iff :
    (∀ s : String,
      (∃ e, parse_solc_version s = .error e) ↔ searchFullVersion s.data = none)
    ∧ (∃ e, parse_solc_version "solc, the solidity compiler\nVersion: 0.8.21+commit.d9974bed" = .error e) := by
  constructor
  · intro s
    cases h : searchFullVersion s.data with
    | none => simp [parse_solc_version, h]
    | some g => simp [parse_solc_version, h]
  · exact ⟨"Solc version could not be found", rfl⟩

/-- C3 counterexample: running the decorated `clean` operation from working
directory "/home/user" leaves the process in the test directory on return
(and likewise when the body raises); the previous working directory is not
restored on either exit path, contrary to the claim. -/
theorem c3_counterexample :
    ((cleanOp "/tmp/ext-test-prb/ext") ⟨"/home/user"⟩).1.cwd = "/tmp/ext-test-prb/ext"
    ∧ ((on_local_test_dir "/tmp/ext-test-prb/ext"
          (fun s => (s, Except.error "rmtree failed")) : OpBody Unit)
        ⟨"/home/user"⟩).1.cwd = "/tmp/ext-test-prb/ext"
    ∧ "/tmp/ext-test-prb/ext" ≠ "/home/user" :=
  ⟨rfl, rfl, by decide⟩

/-- C3 amended: every operation wrapped in `on_local_test_dir` executes its
body with the current working directory set to the test directory, but the
previously current directory is never restored: the wrapper simply runs the
body from the test directory, so a body that does not itself change
directory finishes with the test directory as the current one, whatever the
prior working directory was, on success and error paths alike. -/
theorem c3_amended (α : Type) (test_dir : String) (fn : OpBody α) (s : ProcState)
    (hbody : ∀ t, (fn t).1 = t) :
    on_local_test_dir test_dir fn s = fn ⟨test_dir⟩
    ∧ ((on_local_test_dir test_dir fn s).1).cwd = test_dir := by
  refine ⟨rfl, ?_⟩
  show ((fn ⟨test_dir⟩).1).cwd = test_dir
  rw [hbody]

/-- Witness for the amended C3 at a concrete body and start directory. -/
theorem c3_amended_witness :
    on_local_test_dir "/tmp/ext-test-x/ext" (fun s => (s, Except.ok ())) ⟨"/root"⟩
      = (fun (s : ProcState) => (s, Except.ok ())) ⟨"/tmp/ext-test-x/ext"⟩
    ∧ ((on_local_test_dir "/tmp/ext-test-x/ext"
          (fun s => (s, Except.ok ())) ⟨"/root"⟩).1).cwd = "/tmp/ext-test-x/ext" :=
  c3_amended Unit "/tmp/ext-test-x/ext" (fun s => (s, Except.ok ())) ⟨"/root"⟩ (fun _ => rfl)

/-- C4 counterexample: a `TestConfig` with ref_type "fork" (not one of
commit/branch/tag) is constructed without any error, and the resulting value
is usable — a run over it proceeds through compiler setup and only dies at
`download_project`'s assertion, long after construction.  Likewise a config
whose preset list holds the unrecognized "bogus-preset" constructs fine and
fails only at `settings_from_preset`'s assertion inside the per-preset loop. -/
theorem c4_counterexample :
    makeTestConfig "t" "https://example.com/r.git" "fork" "main" "nodejs" []
        AVAILABLE_PRESETS "shanghai"
      = .ok ⟨"t", "https://example.com/r.git", "fork", "main", "nodejs", [],
          AVAILABLE_PRESETS, "shanghai"⟩
    ∧ (run_test envNoFlag
        ⟨"t", "https://example.com/r.git", "fork", "main", "nodejs", [],
          AVAILABLE_PRESETS, "shanghai"⟩ oracleAllOk).2 = some RunError.refTypeAssert
    ∧ (makeTestConfig "t" "u" "branch" "main" "nodejs" ["bogus-preset"] [] "shanghai").isOk
        = true
    ∧ (run_test envNoFlag
        ⟨"t", "u", "branch", "main", "nodejs", ["bogus-preset"], [], "shanghai"⟩
        oracleAllOk).2 = some RunError.presetAssert :=
  ⟨rfl, rfl, rfl, rfl⟩

/-- C4 amended: constructing a `TestConfig` never fails — the dataclass
performs no validation at all.  An invalid `ref_type` is rejected only later,
by the assertion at the top of `download_project` when the run executes, and
an unrecognized preset entry only by the `settings_from_preset` assertion
inside the per-preset loop. -/
theorem c4_amended :
    (∀ name repo_url ref_type ref bd co sp ev,
      makeTestConfig name repo_url ref_type ref bd co sp ev
        = .ok ⟨name, repo_url, ref_type, ref, bd, co, sp, ev⟩)
    ∧ (∀ (env : OrchEnv) (cfg : TestConfig) (orc : RunnerOracle) out ver,
        orc.setupSolcRaw = some out →
        parse_solc_version out = .ok ver →
        ¬(cfg.ref_type = "commit" ∨ cfg.ref_type = "branch" ∨ cfg.ref_type = "tag") →
        (run_test env cfg orc).2 = some RunError.refTypeAssert)
    ∧ (run_test envNoFlag
        ⟨"t", "u", "tag", "v1", "nodejs", [], ["bogus-preset"], "istanbul"⟩
        oracleAllOk).2 = some RunError.presetAssert := by
  refine ⟨fun _ _ _ _ _ _ _ _ => rfl, ?_, rfl⟩
  intro env cfg orc out ver h1 h2 h3
  simp only [run_test, h1, h2, if_neg h3]

/-- Witness for the amended C4 at a concrete configuration. -/
theorem c4_amended_witness :
    makeTestConfig "w" "u" "detached" "x" "rust" [] [] "paris"
      = .ok ⟨"w", "u", "detached", "x", "rust", [], [], "paris"⟩
    ∧ (run_test envNoFlag ⟨"w", "u", "detached", "x", "rust", [], [], "paris"⟩
        oracleAllOk).2 = some RunError.refTypeAssert :=
  ⟨c4_amended.1 "w" "u" "detached" "x" "rust" [] [] "paris",
   c4_amended.2.1 envNoFlag ⟨"w", "u", "detached", "x", "rust", [], [], "paris"⟩
     oracleAllOk " 0.8.21+commit.d9974bed.Linux.g++" "0.8.21+commit.d9974bed.Linux.g++"
     rfl rfl (by decide)⟩

theorem presetLoop_no_clean (env : OrchEnv) (cfg : TestConfig) (orc : RunnerOracle)
    (ver : String) : ∀ ps, countClean (presetLoop env cfg orc ver ps).1 = 0 := by
  intro ps
  induction ps with
  | nil => simp [presetLoop, countClean]
  | cons p rest ih =>
    simp only [presetLoop]
    split
    · split
      · simp [countClean]
      · split
        · split
          · simp only []
            cases hrec : presetLoop env cfg orc ver rest with
            | mk t out =>
              simp only [countClean, List.countP_cons] at ih ⊢
              rw [hrec] at ih
              simpa using ih
          · split
            · cases hrec : presetLoop env cfg orc ver rest with
              | mk t out =>
                simp only [countClean, List.countP_cons] at ih ⊢
                rw [hrec] at ih
                simpa using ih
            · simp [countClean]
        · simp [countClean]
    · simp [countClean]

/-- C2 counterexample: with a runner whose compile step fails on the first
preset, the run aborts with that compile failure and the cleanup operation
is never invoked — zero `clean` calls, not one, contradicting the claim that
cleanup still happens after a propagated mid-loop failure. -/
theorem c2_counterexample :
    (run_test envNoFlag cfgSix oracleCompileFails).2 = some RunError.compileFailed
    ∧ countClean (run_test envNoFlag cfgSix oracleCompileFails).1 = 0 :=
  ⟨rfl, by decide⟩

/-- C2 amended: `run_test` has no try/finally around the pipeline, so the
cleanup call at its end runs exactly once when the whole run succeeds and
does not run at all when any stage — a mid-loop compile or test failure
included — raises: the number of `clean` invocations is 1 on the success
path and 0 on every failure path. -/
theorem c2_amended (env : OrchEnv) (cfg : TestConfig) (orc : RunnerOracle) :
    countClean (run_test env cfg orc).1 =
      if (run_test env cfg orc).2 = none then 1 else 0 := by
  cases h1 : orc.setupSolcRaw with
  | none => simp [run_test, h1, countClean]
  | some out =>
    cases h2 : parse_solc_version out with
    | error e => simp [run_test, h1, h2, countClean]
    | ok ver =>
      by_cases h3 : cfg.ref_type = "commit" ∨ cfg.ref_type = "branch" ∨ cfg.ref_type = "tag"
      · cases h4 : orc.downloadOk with
        | false => simp [run_test, h1, h2, h3, h4, countClean]
        | true =>
          cases h5 : orc.setupEnvOk with
          | false => simp [run_test, h1, h2, h3, h4, h5, countClean]
          | true =>
            cases h6 : orc.compilerSettingsOk with
            | false => simp [run_test, h1, h2, h3, h4, h5, h6, countClean]
            | true =>
              cases h7 : presetLoop env cfg orc ver cfg.selected_presets with
              | mk t o =>
                have ht : countClean t = 0 := by
                  have hp := presetLoop_no_clean env cfg orc ver cfg.selected_presets
                  rw [h7] at hp
                  exact hp
                simp only [countClean] at ht
                cases o with
                | none =>
                  simp [run_test, h1, h2, h3, h4, h5, h6, h7, countClean,
                    List.countP_append, List.countP_cons, ht]
                | some e =>
                  simp [run_test, h1, h2, h3, h4, h5, h6, h7, countClean,
                    List.countP_append, List.countP_cons, ht]
      · simp [run_test, h1, h2, h3, countClean]

theorem presetLoop_success_counts (env : OrchEnv) (cfg : TestConfig) (orc : RunnerOracle)
    (ver : String) : ∀ ps, (presetLoop env cfg orc ver ps).2 = none →
    countCompile (presetLoop env cfg orc ver ps).1 = ps.length
    ∧ countRunTest (presetLoop env cfg orc ver ps).1 =
        (ps.filter fun p => !skipsTests env cfg p).length := by
  intro ps
  induction ps with
  | nil => intro _; simp [presetLoop, countCompile, countRunTest]
  | cons p rest ih =>
    intro h
    cases hset : (settings_from_preset p cfg.evm_version).isSome with
    | false => simp [presetLoop, hset] at h
    | true =>
      cases hsv : get_solc_short_version ver with
      | error e => simp [presetLoop, hset, hsv] at h
      | ok x =>
        cases hc : orc.compileOk p with
        | false => simp [presetLoop, hset, hsv, hc] at h
        | true =>
          cases hrec : presetLoop env cfg orc ver rest with
          | mk t o =>
            cases hskip : skipsTests env cfg p with
            | true =>
              simp only [presetLoop, hset, hsv, hc, hskip, hrec, if_true] at h ⊢
              obtain ⟨ih1, ih2⟩ := ih (by rw [hrec]; exact h)
              rw [hrec] at ih1 ih2
              simp only [countCompile, countRunTest, List.countP_cons] at ih1 ih2 ⊢
              simp [ih1, ih2, List.filter_cons, hskip]
            | false =>
              cases hr : orc.runTestOk p with
              | false => simp [presetLoop, hset, hsv, hc, hskip, hr] at h
              | true =>
                simp only [presetLoop, hset, hsv, hc, hskip, hr, hrec, if_true] at h ⊢
                obtain ⟨ih1, ih2⟩ := ih (by rw [hrec]; exact h)
                rw [hrec] at ih1 ih2
                simp only [countCompile, countRunTest, List.countP_cons] at ih1 ih2 ⊢
                simp [ih1, ih2, List.filter_cons, hskip]

theorem presetLoop_runTest_zero_of_flag (env : OrchEnv) (cfg : TestConfig)
    (orc : RunnerOracle) (ver : String) (hflag : env.compileOnlyFlag = some "1") :
    ∀ ps, countRunTest (presetLoop env cfg orc ver ps).1 = 0 := by
  have hskip : ∀ q, skipsTests env cfg q = true := by
    intro q
    simp [skipsTests, hflag]
  intro ps
  induction ps with
  | nil => simp [presetLoop, countRunTest]
  | cons p rest ih =>
    cases hset : (settings_from_preset p cfg.evm_version).isSome with
    | false => simp [presetLoop, hset, countRunTest]
    | true =>
      cases hsv : get_solc_short_version ver with
      | error e => simp [presetLoop, hset, hsv, countRunTest]
      | ok x =>
        cases hc : orc.compileOk p with
        | false => simp [presetLoop, hset, hsv, hc, countRunTest]
        | true =>
          cases hrec : presetLoop env cfg orc ver rest with
          | mk t o =>
            rw [hrec] at ih
            simp only [presetLoop, hset, hsv, hc, hskip p, hrec, if_true]
            simp only [countRunTest, List.countP_cons] at ih ⊢
            simp [ih]

/-- C8: when the COMPILE_ONLY environment flag is "1", the per-preset loop
never invokes the runner's `run_test` operation — for no preset, whether or
not it appears in `compile_only_presets` or `settings_presets` — while
`compile` is still invoked once per selected preset (shown for runs that
complete without a propagated failure). -/
theorem c8_compile_only_flag (env : OrchEnv) (cfg : TestConfig) (orc : RunnerOracle)
    (hflag : env.compileOnlyFlag = some "1") :
    countRunTest (run_test env cfg orc).1 = 0
    ∧ ((run_test env cfg orc).2 = none →
        countCompile (run_test env cfg orc).1 = cfg.selected_presets.length) := by
  cases h1 : orc.setupSolcRaw with
  | none => simp [run_test, h1, countRunTest, countCompile]
  | some out =>
    cases h2 : parse_solc_version out with
    | error e => simp [run_test, h1, h2, countRunTest, countCompile]
    | ok ver =>
      by_cases h3 : cfg.ref_type = "commit" ∨ cfg.ref_type = "branch" ∨ cfg.ref_type = "tag"
      · cases h4 : orc.downloadOk with
        | false => simp [run_test, h1, h2, h3, h4, countRunTest, countCompile]
        | true =>
          cases h5 : orc.setupEnvOk with
          | false => simp [run_test, h1, h2, h3, h4, h5, countRunTest, countCompile]
          | true =>
            cases h6 : orc.compilerSettingsOk with
            | false => simp [run_test, h1, h2, h3, h4, h5, h6, countRunTest, countCompile]
            | true =>
              cases h7 : presetLoop env cfg orc ver cfg.selected_presets with
              | mk t o =>
                have hz := presetLoop_runTest_zero_of_flag env cfg orc ver hflag
                    cfg.selected_presets
                rw [h7] at hz
                simp only [countRunTest] at hz
                cases o with
                | none =>
                  have hc := presetLoop_success_counts env cfg orc ver
                      cfg.selected_presets (by rw [h7])
                  rw [h7] at hc
                  simp only [countCompile] at hc
                  simp [run_test, h1, h2, h3, h4, h5, h6, h7, countRunTest, countCompile,
                    List.countP_append, List.countP_cons, hz, hc.1]
                | some e =>
                  simp [run_test, h1, h2, h3, h4, h5, h6, h7, countRunTest, countCompile,
                    List.countP_append, List.countP_cons, hz]
      · simp [run_test, h1, h2, h3, countRunTest, countCompile]

/-- Witness for C8: the PRBMath configuration run with COMPILE_ONLY=1 and an
all-succeeding runner performs no test invocation and six compiles. -/
theorem c8_compile_only_flag_witness :
    countRunTest (run_test envFlagOn cfgSix oracleAllOk).1 = 0
    ∧ countCompile (run_test envFlagOn cfgSix oracleAllOk).1
        = cfgSix.selected_presets.length :=
  ⟨(c8_compile_only_flag envFlagOn cfgSix oracleAllOk rfl).1,
   (c8_compile_only_flag envFlagOn cfgSix oracleAllOk rfl).2 rfl⟩

/-- C9: in a run over a configuration whose selected set has six presets of
which exactly one is in `compile_only_presets`, with the global COMPILE_ONLY
flag unset and the run completing without failure, the orchestrator invokes
`compile` exactly six times (once per selected preset) and `run_test`
exactly five times — precisely for the selected presets not in
`compile_only_presets`. -/
theorem c9_six_compiles_five_tests (env : OrchEnv) (cfg : TestConfig) (orc : RunnerOracle)
    (hflag : env.compileOnlyFlag ≠ some "1")
    (hlen : cfg.selected_presets.length = 6)
    (hone : (cfg.selected_presets.filter fun p =>
        cfg.compile_only_presets.contains p).length = 1)
    (hok : (run_test env cfg orc).2 = none) :
    countCompile (run_test env cfg orc).1 = 6
    ∧ countRunTest (run_test env cfg orc).1 = 5
    ∧ countRunTest (run_test env cfg orc).1 =
        (cfg.selected_presets.filter fun p =>
          !(cfg.compile_only_presets.contains p)).length := by
  have hskip : ∀ q, skipsTests env cfg q = cfg.compile_only_presets.contains q := by
    intro q
    simp only [skipsTests, Bool.or_eq_true, beq_iff_eq]
    cases hq : cfg.compile_only_presets.contains q <;> simp [hflag, hq]
  have hfilter : (cfg.selected_presets.filter fun p => !skipsTests env cfg p)
      = cfg.selected_presets.filter fun p => !(cfg.compile_only_presets.contains p) := by
    apply List.filter_congr
    intro p _
    rw [hskip p]
  have hsum := @List.length_eq_length_filter_add String cfg.selected_presets
    (fun p => cfg.compile_only_presets.contains p)
  have hfive : (cfg.selected_presets.filter fun p =>
      !(cfg.compile_only_presets.contains p)).length = 5 := by
    omega
  have hfive2 : (cfg.selected_presets.filter fun p =>
      !(decide (p ∈ cfg.compile_only_presets))).length = 5 := by
    simpa [List.elem_eq_mem] using hfive
  cases h1 : orc.setupSolcRaw with
  | none => rw [run_test, h1] at hok; simp at hok
  | some out =>
    cases h2 : parse_solc_version out with
    | error e => rw [run_test, h1] at hok; simp [h2] at hok
    | ok ver =>
      by_cases h3 : cfg.ref_type = "commit" ∨ cfg.ref_type = "branch" ∨ cfg.ref_type = "tag"
      · cases h4 : orc.downloadOk with
        | false => rw [run_test, h1] at hok; simp [h2, h3, h4] at hok
        | true =>
          cases h5 : orc.setupEnvOk with
          | false => rw [run_test, h1] at hok; simp [h2, h3, h4, h5] at hok
          | true =>
            cases h6 : orc.compilerSettingsOk with
            | false => rw [run_test, h1] at hok; simp [h2, h3, h4, h5, h6] at hok
            | true =>
              cases h7 : presetLoop env cfg orc ver cfg.selected_presets with
              | mk t o =>
                cases o with
                | some e =>
                  rw [run_test, h1] at hok
                  simp [h2, h3, h4, h5, h6, h7] at hok
                | none =>
                  have hc := presetLoop_success_counts env cfg orc ver
                      cfg.selected_presets (by rw [h7])
                  rw [h7] at hc
                  rw [hfilter] at hc
                  simp only [countCompile, countRunTest] at hc
                  refine ⟨?_, ?_, ?_⟩ <;>
                    simp [run_test, h1, h2, h3, h4, h5, h6, h7, countCompile, countRunTest,
                      List.countP_append, List.countP_cons, hc.1, hc.2, hlen, hfive, hfive2]
      · rw [run_test, h1] at hok
        simp [h2, h3] at hok

/-- Witness for C9: the PRBMath configuration (six selected presets, one of
them compile-only) with an all-succeeding runner compiles six times and
tests five times. -/
theorem c9_six_compiles_five_tests_witness :
    countCompile (run_test envNoFlag cfgSix oracleAllOk).1 = 6
    ∧ countRunTest (run_test envNoFlag cfgSix oracleAllOk).1 = 5
    ∧ countRunTest (run_test envNoFlag cfgSix oracleAllOk).1 =
        (cfgSix.selected_presets.filter fun p =>
          !(cfgSix.compile_only_presets.contains p)).length :=
  c9_six_compiles_five_tests envNoFlag cfgSix oracleAllOk
    (by decide) (by decide) (by decide) rfl

theorem drop_takeWhile_length (p : Char → Bool) (l : List Char) :
    l.drop (l.takeWhile p).length = l.dropWhile p := by
  induction l with
  | nil => simp
  | cons a l ih =>
    by_cases h : p a <;> simp [List.takeWhile_cons, List.dropWhile_cons, h, ih]

theorem dropWhile_head_false (p : Char → Bool) (l : List Char) (a : Char) (t : List Char)
    (h : l.dropWhile p = a :: t) : p a = false := by
  induction l with
  | nil => simp at h
  | cons c cs ih =>
    rw [List.dropWhile_cons] at h
    split at h
    · exact ih h
    · next hc => cases h; simpa using hc

theorem takeWhile_all_append (p : Char → Bool) (xs : List Char) (y : Char) (ys : List Char)
    (hxs : ∀ c ∈ xs, p c = true) (hy : p y = false) :
    (xs ++ y :: ys).takeWhile p = xs := by
  induction xs with
  | nil => simp [List.takeWhile_cons, hy]
  | cons a l ih =>
    have ha : p a = true := hxs a (by simp)
    simp only [List.cons_append, List.takeWhile_cons, ha, if_true]
    rw [ih (fun c hc => hxs c (by simp [hc]))]

/-- Characterization of `matchPragmaAt`: the pattern matches with remainder
`r` exactly when the string is the literal, then a nonempty semicolon-free
clause, then `;`, then `r`. -/
theorem matchPragmaAt_some_iff (cs r : List Char) :
    matchPragmaAt cs = some r ↔
      ∃ clause, clause ≠ [] ∧ (∀ c ∈ clause, c ≠ ';') ∧
        cs = pragmaLit ++ clause ++ ';' :: r := by
  constructor
  · intro h
    unfold matchPragmaAt at h
    split at h
    · next hlit =>
      simp only [] at h
      set run := ((cs.drop 16).takeWhile (fun c => c ≠ ';')) with hrun
      split at h
      · exact absurd h (by simp)
      · split at h
        · exact absurd h (by simp)
        · next hrunne hafterne =>
          refine ⟨run, hrunne, ?_, ?_⟩
          · intro c hc
            have := List.mem_takeWhile_imp hc
            simpa using this
          · have hcs : cs = pragmaLit ++ cs.drop 16 := by
              conv_lhs => rw [← List.take_append_drop 16 cs, hlit]
            have hafter : (cs.drop 16).drop run.length = (cs.drop 16).dropWhile (fun c => c ≠ ';') := by
              rw [hrun, drop_takeWhile_length]
            cases hdw : (cs.drop 16).dropWhile (fun c => c ≠ ';') with
            | nil => exact absurd (hafter.trans hdw) hafterne
            | cons a t =>
              have ha : a = ';' := by
                have := dropWhile_head_false _ _ _ _ hdw
                simpa using this
              subst ha
              have hsplit : cs.drop 16 = run ++ ';' :: t := by
                rw [hrun, ← hdw]
                exact (List.takeWhile_append_dropWhile _ _).symm
              have hr : r = t := by
                rw [hafter, hdw] at h
                simpa using h.symm
              rw [hcs, hsplit, hr]
              simp [List.append_assoc]
    · exact absurd h (by simp)
  · rintro ⟨clause, hne, hall, rfl⟩
    have hlitlen : pragmaLit.length = 16 := by decide
    have htake : ((pragmaLit ++ (clause ++ ';' :: r)).take 16) = pragmaLit := by
      rw [← hlitlen, List.take_left]
    have hdrop : ((pragmaLit ++ (clause ++ ';' :: r)).drop 16) = clause ++ ';' :: r := by
      rw [← hlitlen, List.drop_left]
    have hallb : ∀ c ∈ clause, (fun c => decide (c ≠ ';')) c = true := by
      intro c hc
      simpa using hall c hc
    have htw : ((clause ++ ';' :: r).takeWhile (fun c => c ≠ ';')) = clause :=
      takeWhile_all_append _ _ _ _ hallb (by simp)
    unfold matchPragmaAt
    rw [List.append_assoc, htake, if_pos rfl, hdrop, htw]
    rw [if_neg hne, List.drop_left, if_neg (by simp)]
    simp

theorem matchPragmaAt_nil : matchPragmaAt [] = none := by
  decide

theorem matchPragmaAt_head (cs r : List Char) (h : matchPragmaAt cs = some r) :
    ∃ cs', cs = 'p' :: cs' := by
  obtain ⟨clause, -, -, hcs⟩ := (matchPragmaAt_some_iff cs r).mp h
  exact ⟨_, hcs⟩

theorem matchPragmaAt_length (cs r : List Char) (h : matchPragmaAt cs = some r) :
    r.length + 18 ≤ cs.length := by
  obtain ⟨clause, hne, -, hcs⟩ := (matchPragmaAt_some_iff cs r).mp h
  have hc : 1 ≤ clause.length := by
    cases clause with
    | nil => exact absurd rfl hne
    | cons a t => simp
  have : pragmaLit.length = 16 := by decide
  subst hcs
  simp only [List.length_append, List.length_cons, this]
  omega

theorem matchPragmaAt_semicolon (cs r : List Char) (h : matchPragmaAt cs = some r) :
    ';' ∈ cs := by
  obtain ⟨clause, -, -, hcs⟩ := (matchPragmaAt_some_iff cs r).mp h
  subst hcs
  simp

theorem replacePragmasGo_cons_some (fuel : Nat) (c : Char) (cs rest : List Char)
    (h : matchPragmaAt (c :: cs) = some rest) :
    replacePragmasGo (fuel + 1) (c :: cs) = pragmaRepl ++ replacePragmasGo fuel rest := by
  simp [replacePragmasGo, h]

theorem replacePragmasGo_cons_none (fuel : Nat) (c : Char) (cs : List Char)
    (h : matchPragmaAt (c :: cs) = none) :
    replacePragmasGo (fuel + 1) (c :: cs) = c :: replacePragmasGo fuel cs := by
  simp [replacePragmasGo, h]

theorem replacePragmasGo_fuel (f : Nat) : ∀ (g : Nat) (cs : List Char),
    cs.length ≤ f → cs.length ≤ g →
    replacePragmasGo f cs = replacePragmasGo g cs := by
  induction f with
  | zero =>
    intro g cs hf _
    have : cs = [] := List.length_eq_zero.mp (Nat.le_zero.mp hf)
    subst this
    cases g <;> rfl
  | succ f ih =>
    intro g cs hf hg
    cases cs with
    | nil => cases g <;> rfl
    | cons c cs' =>
      cases g with
      | zero => simp at hg
      | succ g' =>
        cases hm : matchPragmaAt (c :: cs') with
        | some rest =>
          rw [replacePragmasGo_cons_some f c cs' rest hm,
            replacePragmasGo_cons_some g' c cs' rest hm]
          have hlen := matchPragmaAt_length _ _ hm
          simp only [List.length_cons] at hlen hf hg
          rw [ih g' rest (by omega) (by omega)]
        | none =>
          rw [replacePragmasGo_cons_none f c cs' hm,
            replacePragmasGo_cons_none g' c cs' hm]
          simp only [List.length_cons] at hf hg
          rw [ih g' cs' (by omega) (by omega)]

theorem replace_version_pragmas_nil : replace_version_pragmas [] = [] := by
  rfl

theorem replace_version_pragmas_cons_some (c : Char) (cs rest : List Char)
    (h : matchPragmaAt (c :: cs) = some rest) :
    replace_version_pragmas (c :: cs) = pragmaRepl ++ replace_version_pragmas rest := by
  unfold replace_version_pragmas
  rw [List.length_cons, replacePragmasGo_cons_some cs.length c cs rest h]
  have hlen := matchPragmaAt_length _ _ h
  simp only [List.length_cons] at hlen
  rw [replacePragmasGo_fuel cs.length rest.length rest (by omega) (by omega)]

theorem replace_version_pragmas_cons_none (c : Char) (cs : List Char)
    (h : matchPragmaAt (c :: cs) = none) :
    replace_version_pragmas (c :: cs) = c :: replace_version_pragmas cs := by
  unfold replace_version_pragmas
  rw [List.length_cons, replacePragmasGo_cons_none cs.length c cs h]

theorem replace_version_pragmas_split : ∀ (n : Nat) (cs : List Char),
    (∀ i, i < n → matchPragmaAt (cs.drop i) = none) →
    replace_version_pragmas cs = cs.take n ++ replace_version_pragmas (cs.drop n) := by
  intro n
  induction n with
  | zero => intro cs _; simp
  | succ n ih =>
    intro cs h
    cases cs with
    | nil => simp [replace_version_pragmas_nil]
    | cons c cs' =>
      have h0 : matchPragmaAt (c :: cs') = none := by
        have := h 0 (Nat.succ_pos n)
        simpa using this
      rw [replace_version_pragmas_cons_none c cs' h0]
      have hsh : ∀ i, i < n → matchPragmaAt (cs'.drop i) = none := by
        intro i hi
        have := h (i + 1) (by omega)
        simpa using this
      rw [ih cs' hsh]
      simp

theorem replace_version_pragmas_no_semicolon (cs : List Char) (h : ';' ∉ cs) :
    replace_version_pragmas cs = cs := by
  induction cs with
  | nil => exact replace_version_pragmas_nil
  | cons c cs' ih =>
    have hm : matchPragmaAt (c :: cs') = none := by
      cases hm2 : matchPragmaAt (c :: cs') with
      | none => rfl
      | some r => exact absurd (matchPragmaAt_semicolon _ _ hm2) h
    rw [replace_version_pragmas_cons_none c cs' hm]
    rw [ih (fun hmem => h (by simp [hmem]))]

theorem replace_version_pragmas_take_reflect : ∀ (cs t : List Char), 'p' ∉ t →
    (replace_version_pragmas cs).take t.length = t → cs.take t.length = t := by
  intro cs
  induction cs with
  | nil =>
    intro t hp h
    rw [replace_version_pragmas_nil] at h
    simpa using h
  | cons c cs' ih =>
    intro t hp h
    cases hm : matchPragmaAt (c :: cs') with
    | some rest =>
      cases t with
      | nil => simp
      | cons b t' =>
        rw [replace_version_pragmas_cons_some c cs' rest hm] at h
        have hrepl : pragmaRepl ++ replace_version_pragmas rest
            = 'p' :: ("ragma solidity >=0.0;".data ++ replace_version_pragmas rest) := by
          rfl
        rw [hrepl, List.length_cons, List.take_succ_cons] at h
        have hb : b = 'p' := by
          have := congrArg List.head? h
          simpa using this.symm
        exact absurd (hb ▸ List.mem_cons_self b t') hp
    | none =>
      cases t with
      | nil => simp
      | cons b t' =>
        rw [replace_version_pragmas_cons_none c cs' hm, List.length_cons,
          List.take_succ_cons] at h
        have hc : c = b := (List.cons_eq_cons.mp h).1
        have ht' : (replace_version_pragmas cs').take t'.length = t' :=
          (List.cons_eq_cons.mp h).2
        have hp' : 'p' ∉ t' := fun hmem => hp (by simp [hmem])
        rw [List.length_cons, List.take_succ_cons, hc, ih t' hp' ht']

theorem matchPragmaAt_repl (r : List Char) :
    matchPragmaAt (pragmaRepl ++ r) = some r := by
  apply (matchPragmaAt_some_iff _ _).mpr
  refine ⟨">=0.0".data, by decide, by decide, ?_⟩
  have : pragmaRepl = pragmaLit ++ ">=0.0".data ++ [';'] := by decide
  rw [this]
  simp

theorem matchPragmaAt_none_preserved (c : Char) (cs : List Char)
    (h : matchPragmaAt (c :: cs) = none) :
    matchPragmaAt (c :: replace_version_pragmas cs) = none := by
  cases hm2 : matchPragmaAt (c :: replace_version_pragmas cs) with
  | none => rfl
  | some r' =>
    exfalso
    obtain ⟨clause', hne', hall', hcs'⟩ := (matchPragmaAt_some_iff _ _).mp hm2
    have hlit : pragmaLit = 'p' :: "ragma solidity ".data := by decide
    rw [hlit] at hcs'
    simp only [List.cons_append, List.append_assoc] at hcs'
    have hc : c = 'p' := (List.cons_eq_cons.mp hcs').1
    have hrp : replace_version_pragmas cs
        = "ragma solidity ".data ++ (clause' ++ ';' :: r') :=
      (List.cons_eq_cons.mp hcs').2
    have hT15 : ("ragma solidity ".data : List Char).length = 15 := by decide
    have htake : (replace_version_pragmas cs).take 15 = "ragma solidity ".data := by
      rw [hrp, ← hT15, List.take_left]
    have hcs15 : cs.take 15 = "ragma solidity ".data := by
      have := replace_version_pragmas_take_reflect cs "ragma solidity ".data
        (by decide) (by rw [hT15]; exact htake)
      rwa [hT15] at this
    have hdecomp : cs = "ragma solidity ".data ++ cs.drop 15 := by
      conv_lhs => rw [← List.take_append_drop 15 cs, hcs15]
    by_cases hsemi : ';' ∈ cs.drop 15
    · cases hX : cs.drop 15 with
      | nil => rw [hX] at hsemi; simp at hsemi
      | cons x xs =>
        by_cases hx : x = ';'
        · subst hx
          have hnm : ∀ i, i < 15 → matchPragmaAt (cs.drop i) = none := by
            intro i hi
            cases hmi : matchPragmaAt (cs.drop i) with
            | none => rfl
            | some ri =>
              exfalso
              obtain ⟨ds, hds⟩ := matchPragmaAt_head _ _ hmi
              have hdropapp : cs.drop i = ("ragma solidity ".data : List Char).drop i
                  ++ cs.drop 15 := by
                conv_lhs => rw [hdecomp]
                exact List.drop_append_of_le_length (by omega)
              cases hTd : ("ragma solidity ".data : List Char).drop i with
              | nil =>
                have := congrArg List.length hTd
                simp [hT15] at this
                omega
              | cons a as =>
                have ha : a ∈ ("ragma solidity ".data : List Char) :=
                  List.drop_subset i _ (hTd ▸ List.mem_cons_self a as)
                have hap : a ≠ 'p' := by
                  intro heq
                  subst heq
                  exact absurd ha (by decide)
                rw [hdropapp, hTd] at hds
                have hsimp : a = 'p' ∧ as ++ cs.drop 15 = ds := by simpa using hds
                exact hap hsimp.1
          have hsplit := replace_version_pragmas_split 15 cs hnm
          have hmx : matchPragmaAt (';' :: xs) = none := by
            cases hmx2 : matchPragmaAt (';' :: xs) with
            | none => rfl
            | some rx =>
              obtain ⟨ds, hds⟩ := matchPragmaAt_head _ _ hmx2
              simp at hds
          rw [hcs15, hX, replace_version_pragmas_cons_none ';' xs hmx] at hsplit
          rw [hsplit] at hrp
          have hcancel : ';' :: replace_version_pragmas xs = clause' ++ ';' :: r' :=
            List.append_cancel_left hrp
          cases hclause : clause' with
          | nil => exact hne' hclause
          | cons q qs =>
            rw [hclause] at hcancel
            have hq : q = ';' := ((List.cons_eq_cons.mp (by simpa using hcancel)).1).symm
            exact hall' q (by simp [hclause]) hq
        · have hPx : (fun ch => decide (ch ≠ ';')) x = true := by simpa using hx
          have hdwne : (cs.drop 15).dropWhile (fun ch => ch ≠ ';') ≠ [] := by
            intro hdw
            have hall := List.dropWhile_eq_nil_iff.mp hdw
            have := hall ';' hsemi
            simp at this
          cases hdw : (cs.drop 15).dropWhile (fun ch => ch ≠ ';') with
          | nil => exact hdwne hdw
          | cons a t =>
            have ha : a = ';' := by
              have := dropWhile_head_false _ _ _ _ hdw
              simpa using this
            subst ha
            have hXsplit : cs.drop 15 = (cs.drop 15).takeWhile (fun ch => ch ≠ ';')
                ++ ';' :: t := by
              rw [← hdw]
              exact (List.takeWhile_append_dropWhile _ _).symm
            have htwne : (cs.drop 15).takeWhile (fun ch => ch ≠ ';') ≠ [] := by
              rw [hX, List.takeWhile_cons, if_pos hPx]
              simp
            have hmatch : matchPragmaAt (c :: cs) = some t := by
              apply (matchPragmaAt_some_iff _ _).mpr
              refine ⟨(cs.drop 15).takeWhile (fun ch => ch ≠ ';'), htwne, ?_, ?_⟩
              · intro ch hch
                have := List.mem_takeWhile_imp hch
                simpa using this
              · rw [hc, hlit]
                conv_lhs => rw [hdecomp, hXsplit]
                simp [List.append_assoc]
            rw [hmatch] at h
            cases h
    · have hsemicert : ';' ∉ cs := by
        intro hmem
        rw [hdecomp] at hmem
        rcases List.mem_append.mp hmem with h1 | h2
        · exact absurd h1 (by decide)
        · exact hsemi h2
      have hid := replace_version_pragmas_no_semicolon cs hsemicert
      rw [hid] at hrp
      have hXeq : cs.drop 15 = clause' ++ ';' :: r' := by
        have hfull : "ragma solidity ".data ++ cs.drop 15
            = "ragma solidity ".data ++ (clause' ++ ';' :: r') := by
          rw [← hrp, ← hdecomp]
        exact List.append_cancel_left hfull
      exact hsemi (by rw [hXeq]; simp)

theorem replace_version_pragmas_idem_aux : ∀ (n : Nat) (cs : List Char), cs.length ≤ n →
    replace_version_pragmas (replace_version_pragmas cs) = replace_version_pragmas cs := by
  intro n
  induction n with
  | zero =>
    intro cs hle
    have : cs = [] := List.length_eq_zero.mp (Nat.le_zero.mp hle)
    subst this
    simp [replace_version_pragmas_nil]
  | succ n ih =>
    intro cs hle
    cases cs with
    | nil => simp [replace_version_pragmas_nil]
    | cons c cs' =>
      cases hm : matchPragmaAt (c :: cs') with
      | some rest =>
        rw [replace_version_pragmas_cons_some c cs' rest hm]
        have hshape : pragmaRepl ++ replace_version_pragmas rest
            = 'p' :: ("ragma solidity >=0.0;".data ++ replace_version_pragmas rest) := rfl
        have hmr : matchPragmaAt ('p' :: ("ragma solidity >=0.0;".data
            ++ replace_version_pragmas rest)) = some (replace_version_pragmas rest) := by
          rw [← hshape]
          exact matchPragmaAt_repl _
        have step : replace_version_pragmas (pragmaRepl ++ replace_version_pragmas rest)
            = pragmaRepl ++ replace_version_pragmas (replace_version_pragmas rest) := by
          rw [hshape]
          exact replace_version_pragmas_cons_some _ _ _ hmr
        rw [step]
        have hlen := matchPragmaAt_length _ _ hm
        simp only [List.length_cons] at hlen hle
        rw [ih rest (by omega)]
      | none =>
        rw [replace_version_pragmas_cons_none c cs' hm]
        have hm2 := matchPragmaAt_none_preserved c cs' hm
        rw [replace_version_pragmas_cons_none c _ hm2]
        simp only [List.length_cons] at hle
        rw [ih cs' (by omega)]

/-- C10: the version-pragma rewrite is idempotent on file contents: a second
application of the substitution changes nothing, because the replacement
text "pragma solidity >=0.0;" itself matches the pattern and is rewritten to
itself, and the rewrite introduces no new match anywhere else. -/
theorem c10_replace_version_pragmas_idempotent (cs : List Char) :
    replace_version_pragmas (replace_version_pragmas cs) = replace_version_pragmas cs :=
  replace_version_pragmas_idem_aux cs.length cs (Nat.le_refl _)

/-- C7: the rewrite replaces every occurrence of a pragma-solidity directive
(the text from "pragma solidity " up to the terminating ';') with
"pragma solidity >=0.0;" and alters nothing else — the content before a
directive (when the pattern matches nowhere in it) and after it are carried
over unchanged, the latter with its own directives rewritten in turn — and
contents in which the pattern matches nowhere are left byte-identical. -/
theorem c7_pragma_rewrite :
    (∀ cs : List Char, (∀ i, i < cs.length → matchPragmaAt (cs.drop i) = none) →
      replace_version_pragmas cs = cs)
    ∧ (∀ pre clause post : List Char,
        (∀ i, i < pre.length →
          matchPragmaAt ((pre ++ pragmaLit ++ clause ++ ';' :: post).drop i) = none) →
        clause ≠ [] → (∀ ch ∈ clause, ch ≠ ';') →
        replace_version_pragmas (pre ++ pragmaLit ++ clause ++ ';' :: post)
          = pre ++ pragmaRepl ++ replace_version_pragmas post) := by
  constructor
  · intro cs h
    rw [replace_version_pragmas_split cs.length cs h]
    simp [replace_version_pragmas_nil]
  · intro pre clause post hpre hne hall
    have hsplit := replace_version_pragmas_split pre.length
      (pre ++ pragmaLit ++ clause ++ ';' :: post) hpre
    have htake : (pre ++ pragmaLit ++ clause ++ ';' :: post).take pre.length = pre := by
      simp only [List.append_assoc]
      exact List.take_left pre _
    have hdrop : (pre ++ pragmaLit ++ clause ++ ';' :: post).drop pre.length
        = pragmaLit ++ (clause ++ ';' :: post) := by
      simp only [List.append_assoc]
      exact List.drop_left pre _
    have hmatch : matchPragmaAt (pragmaLit ++ (clause ++ ';' :: post)) = some post := by
      apply (matchPragmaAt_some_iff _ _).mpr
      exact ⟨clause, hne, hall, by simp [List.append_assoc]⟩
    have hlitshape : pragmaLit ++ (clause ++ ';' :: post)
        = 'p' :: ("ragma solidity ".data ++ (clause ++ ';' :: post)) := by
      rfl
    have hrped : replace_version_pragmas (pragmaLit ++ (clause ++ ';' :: post))
        = pragmaRepl ++ replace_version_pragmas post := by
      rw [hlitshape]
      apply replace_version_pragmas_cons_some
      rw [← hlitshape]
      exact hmatch
    rw [hsplit, htake, hdrop, hrped]
    simp [List.append_assoc]

/-- Witness for C7: a file without the pattern is unchanged, and a file with
one mid-line directive has exactly the directive replaced, with the
surrounding bytes intact. -/
theorem c7_pragma_rewrite_witness :
    replace_version_pragmas "no pragma here".data = "no pragma here".data
    ∧ replace_version_pragmas
        ("// header\n".data ++ pragmaLit ++ "^0.8.0".data ++ ';' :: "\ncontract C".data)
      = "// header\n".data ++ pragmaRepl ++ replace_version_pragmas "\ncontract C".data :=
  ⟨c7_pragma_rewrite.1 "no pragma here".data (by decide),
   c7_pragma_rewrite.2 "// header\n".data "^0.8.0".data "\ncontract C".data
     (by decide) (by decide) (by decide)⟩
